import Mathlib

/-!
# Verification of `torchrl/data/replay_buffers/storages.py`

A shallow embedding of the storage layer of the replay buffer: list-backed
storage (`ListStorage`), pre-allocated tensor storage (`TensorStorage` /
`LazyTensorStorage` / `LazyMemmapStorage`), compressed list storage
(`CompressedListStorage`) and the read-only `StorageEnsemble`.

Conventions of the embedding:
* Python lists become Lean `List`s; Python integer indices become `Int`
  (negative indices wrap, as in Python); `None` slots become dedicated
  constructors.
* A method that can raise is modelled as returning the post-state together
  with `Option String` (the error, when one is raised).  Checks that in the
  source run before any mutation leave the state unchanged on error;
  mutations that run before a later error are kept (e.g. `_get_new_len`
  runs before the tensor write in `TensorStorage.set`).
* Slices are modelled with step 1 (the default); `slice.indices` clamping
  and Python slice assignment `l[a:b] = data` are reproduced for that case.
-/

namespace Storages

/-- Python index resolution: a negative index counts from the end. -/
def pyResolve (n : Nat) (i : Int) : Int :=
  if i < 0 then i + n else i

/-- `slice.indices` endpoint resolution for a step-1 slice over a list of
length `n`: resolve a negative endpoint, then clamp into `[0, n]`. -/
def sliceIdx (n : Nat) (i : Option Int) (dflt : Nat) : Nat :=
  match i with
  | none => dflt
  | some i => (max (pyResolve n i) 0).toNat.min n

/-- Python `l[i] = x` on a list: wraps negative indices, `none` on
`IndexError`. -/
def pySetItem (l : List α) (i : Int) (x : α) : Option (List α) :=
  if 0 ≤ pyResolve l.length i ∧ pyResolve l.length i < l.length then
    some (l.set (pyResolve l.length i).toNat x)
  else none

/-- Python `l[i]` on a list: wraps negative indices, `none` on `IndexError`. -/
def pyGetItem (l : List α) (i : Int) : Option α :=
  if 0 ≤ pyResolve l.length i ∧ pyResolve l.length i < l.length then
    l[(pyResolve l.length i).toNat]?
  else none

/-- Python `l[a:b]` for a step-1 slice (endpoints clamped by
`slice.indices`). -/
def pyGetSlice (l : List α) (start stop : Option Int) : List α :=
  let s := sliceIdx l.length start 0
  let e := sliceIdx l.length stop l.length
  (l.take e).drop s

/-- Python slice assignment `l[a:b] = data` for a step-1 slice: the slice is
replaced by `data`, which may shrink or grow the list (no capacity check
is performed by this operation). -/
def pySliceAssign (l : List α) (start stop : Option Int) (d : List α) : List α :=
  let s := sliceIdx l.length start 0
  let e := sliceIdx l.length stop l.length
  l.take s ++ d ++ l.drop (max s e)

/-! ## `ListStorage`

From `ListStorage` in `storages.py`: the backing store is a plain Python
list `self._storage`; `max_size` defaults to `2**63 - 1` when unspecified
(modelled as an arbitrary `Nat`).  Device placement (`_to_device`) is the
identity when `device=None`, the configuration used throughout; it is
omitted. -/

structure ListStorage (α : Type) where
  maxSize : Nat
  storage : List α
  deriving Repr, DecidableEq

/-- A freshly constructed `ListStorage(max_size)`: empty backing list. -/
def freshList (α : Type) (maxSize : Nat) : ListStorage α :=
  ⟨maxSize, []⟩

/-- `ListStorage.set` with a scalar integer cursor, from the source:
reject `cursor > len(self._storage)` (skip-ahead), then reject
`cursor >= self.max_size`; otherwise `_set_item` appends when
`cursor == len(self._storage)` and assigns `self._storage[cursor] = data`
otherwise. -/
def lsSetInt (s : ListStorage α) (c : Int) (x : α) : ListStorage α × Option String :=
  if c > (s.storage.length : Int) then
    (s, some "RuntimeError: Cannot append data located more than one item away from the storage size")
  else if c ≥ (s.maxSize : Int) then
    (s, some "RuntimeError: Cannot append data to the list storage: maximum capacity reached")
  else if c = (s.storage.length : Int) then
    ({ s with storage := s.storage ++ [x] }, none)
  else
    match pySetItem s.storage c x with
    | some l => ({ s with storage := l }, none)
    | none => (s, some "IndexError")

/-- `ListStorage.set` with a sequence cursor: the source zips cursor and data
with `_zip_strict` and recurses item by item; a length mismatch raises after
the pairs up to the shorter length have been written, and an error on one
item aborts the remaining ones. -/
def lsSetSeq (s : ListStorage α) : List Int → List α → ListStorage α × Option String
  | [], [] => (s, none)
  | c :: cs, d :: ds =>
    match lsSetInt s c d with
    | (s', none) => lsSetSeq s' cs ds
    | (s', some e) => (s', some e)
  | _, _ => (s, some "ValueError: zip() argument lengths differ")

/-- A `set` call on a `ListStorage`, by cursor kind (scalar, step-1 slice,
or sequence of integer indices). -/
inductive LSOp (α : Type) where
  | int (c : Int) (d : α)
  | slice (start stop : Option Int) (d : List α)
  | seq (cs : List Int) (ds : List α)

/-- `ListStorage.set(cursor, data, set_cursor=...)`: dispatch on the cursor
kind.  `set_cursor` is accepted but (as in the source scalar/slice paths)
never consulted: the list path has no length bookkeeping besides the list
itself.  The slice path performs raw Python slice assignment with no
capacity check. -/
def lsSet (s : ListStorage α) (op : LSOp α) (_setCursor : Bool) :
    ListStorage α × Option String :=
  match op with
  | .int c d => lsSetInt s c d
  | .slice a b d => ({ s with storage := pySliceAssign s.storage a b d }, none)
  | .seq cs ds => lsSetSeq s cs ds

/-- Run a sequence of `set` calls, keeping the (possibly partially mutated)
state when a call raises, as the Python exception would leave it. -/
def lsRun (s : ListStorage α) (ops : List (LSOp α)) : ListStorage α :=
  ops.foldl (fun st op => (lsSet st op true).1) s

/-- An index accepted by `ListStorage.get`: integer, step-1 slice, tuple of
indices, or list of integers. -/
inductive GetIndex where
  | int (i : Int)
  | slice (start stop : Option Int)
  | tup (ts : List GetIndex)
  | seq (is_ : List Int)

/-- The value returned by `ListStorage.get`: a single item or a list. -/
inductive GetOut (α : Type) where
  | one (a : α)
  | many (l : List α)
  deriving Repr, DecidableEq

/-- `ListStorage.get`, from the source: integer indices go to `_get_item`,
slices to `_get_slice`, tuples of length > 1 raise a `RuntimeError`,
one-element tuples recurse on their sole element (an empty tuple raises an
`IndexError` from `index[0]`), and anything else goes to `_get_list`. -/
def lsGet (s : ListStorage α) : GetIndex → Except String (GetOut α)
  | .int i =>
    match pyGetItem s.storage i with
    | some a => .ok (.one a)
    | none => .error "IndexError"
  | .slice a b => .ok (.many (pyGetSlice s.storage a b))
  | .tup [] => .error "IndexError"
  | .tup [t] => lsGet s t
  | .tup (_ :: _ :: _) =>
    .error "RuntimeError: ListStorage can only be indexed with one-length tuples."
  | .seq is_ =>
    match is_.mapM (pyGetItem s.storage) with
    | some l => .ok (.many l)
    | none => .error "IndexError"

/-- `ListStorage.__len__` is the raw length of the backing list. -/
def lsLen (s : ListStorage α) : Nat :=
  s.storage.length

/-! ## `TensorStorage` length bookkeeping and lazy allocation

`TensorStorage._get_new_len` (source lines 843-851) is pure arithmetic on
the shape of the incoming data; it is reproduced verbatim.  `numel` of a
`torch.Size` is the product of its entries (1 for the empty size). -/

/-- `torch.Size.numel`: product of the dimensions, 1 for the empty shape. -/
def numel (shape : List Nat) : Nat :=
  shape.prod

/-- `TensorStorage._get_new_len`: with `int_cursor = _is_int(cursor)`,
`ndim = self.ndim - int_cursor`, `numel = data.shape[:ndim].numel()`,
`self._len = min(self._len + numel, self.max_size)`.

`_is_int` lives in `torchrl/data/replay_buffers/utils.py` (not under the
analysed sources); modelled from the spec as "the cursor is a single
integer", which is how every call site distinguishes cursor kinds. -/
def getNewLen (len maxSize ndim : Nat) (dataShape : List Nat)
    (cursorIsInt : Bool) : Nat :=
  let nd := ndim - (if cursorIsInt then 1 else 0)
  min (len + numel (dataShape.take nd)) maxSize

/-- Python's `-(a // -b)` ceiling division, with `//` the floor division
`Int.fdiv` (defined for `b > 0`, as shapes are positive). -/
def pyCeilDiv (a b : Nat) : Int :=
  -(Int.fdiv a (-(b : Int)))

/-- The `max_size_along_dim0` closure of `LazyTensorStorage._init`
(identical in `LazyMemmapStorage._init`): for `ndim > 1` the capacity along
axis 0 is `-(max_size // -data_shape[:ndim-1].numel())` and `max_size` is
re-assigned to the `numel` of the resulting buffer shape
`(rows, *data_shape)`; for `ndim == 1` the buffer shape is
`(max_size, *data_shape)` and `max_size` is unchanged.  Returns the buffer
shape together with the updated `max_size`. -/
def maxSizeAlongDim0 (maxSize ndim : Nat) (dataShape : List Nat) :
    List Nat × Nat :=
  if ndim > 1 then
    let rows := (pyCeilDiv maxSize (numel (dataShape.take (ndim - 1)))).toNat
    (rows :: dataShape, numel (rows :: dataShape))
  else
    (maxSize :: dataShape, maxSize)

/-- The state of a `TensorStorage`-family storage with `ndim = 1`, at slot
granularity: the pre-allocated buffer is a row vector of `max_size` slots
(`torch.empty` garbage is `none`), `_len` is the occupancy counter kept in
the (single-process view of the) shared value, `initialized` flips on the
first write. -/
structure TensorStorage (α : Type) where
  maxSize : Nat
  len : Nat
  initialized : Bool
  buf : List (Option α)
  deriving Repr, DecidableEq

/-- A fresh `LazyTensorStorage(max_size)` (`ndim = 1`): uninitialized, no
buffer, `_len = 0`. -/
def freshTS (α : Type) (maxSize : Nat) : TensorStorage α :=
  ⟨maxSize, 0, false, []⟩

/-- Lazy first-write allocation (`LazyTensorStorage._init`, `ndim = 1`):
allocate `max_size` rows of uninitialized memory.  A no-op when already
initialized (`set` only calls it when `initialized` is false). -/
def tsInit (s : TensorStorage α) : TensorStorage α :=
  if s.initialized then s
  else { s with buf := List.replicate s.maxSize none, initialized := true }

/-- Write rows elementwise at the given indices
(`self._storage[cursor] = data` for an index-tensor cursor). -/
def writeRows (buf : List (Option α)) : List (Nat × α) → List (Option α)
  | [] => buf
  | (i, d) :: rest => writeRows (buf.set i (some d)) rest

/-- `TensorStorage.set` with a scalar integer cursor writing one row
(`ndim = 1`, so `_get_new_len` counts `data.shape[:0].numel() == 1`).
Order as in the source: `_get_new_len` runs first (when `set_cursor`),
then lazy `_init`, then the buffer write; an out-of-range cursor raises
from the tensor indexing, after the length was already updated. -/
def tsSetInt (s : TensorStorage α) (c : Nat) (d : α) (setCursor : Bool) :
    TensorStorage α × Option String :=
  let s0 := if setCursor then { s with len := getNewLen s.len s.maxSize 1 [] true } else s
  let s1 := tsInit s0
  if c < s1.buf.length then
    ({ s1 with buf := s1.buf.set c (some d) }, none)
  else (s1, some "IndexError: index out of bounds")

/-- `TensorStorage.set` with a cursor that is a sequence of row indices and
data whose leading axis zips with it (`ndim = 1`, so `_get_new_len` counts
`data.shape[:1].numel()`, the number of rows of `data`).  Same ordering as
`tsSetInt`. -/
def tsSetSeq (s : TensorStorage α) (cs : List Nat) (ds : List α)
    (setCursor : Bool) : TensorStorage α × Option String :=
  let s0 :=
    if setCursor then { s with len := getNewLen s.len s.maxSize 1 [ds.length] false }
    else s
  let s1 := tsInit s0
  if cs.all (· < s1.buf.length) then
    ({ s1 with buf := writeRows s1.buf (cs.zip ds) }, none)
  else (s1, some "IndexError: index out of bounds")

/-- `TensorStorage.get` at an integer row index (`ndim = 1`): raises when
uninitialized; otherwise reads from `storage[:len]` when not full and from
the whole buffer when full. -/
def tsGetInt (s : TensorStorage α) (i : Nat) : Except String (Option α) :=
  if !s.initialized then
    .error "RuntimeError: Cannot get elements out of a non-initialized storage."
  else
    let visible := if s.len = s.maxSize then s.buf else s.buf.take s.len
    match visible[i]? with
    | some a => .ok a
    | none => .error "IndexError"

/-- `TensorStorage.__len__` is the `_len` counter. -/
def tsLen (s : TensorStorage α) : Nat :=
  s.len

/-- Number of occupied (written) slots of the buffer. -/
def tsOccupied (s : TensorStorage α) : Nat :=
  s.buf.countP (·.isSome)

/-- Run a sequence of index-sequence `set` calls with `set_cursor=True`. -/
def tsRunSeq (s : TensorStorage α) (ops : List (List Nat × List α)) :
    TensorStorage α :=
  ops.foldl (fun st op => (tsSetSeq st op.1 op.2 true).1) s

/-! ## `StorageEnsemble`

`StorageEnsemble(Storage)` holds member storages and optional per-member
transforms.  `extend` and `add` raise `RuntimeError`; `state_dict` and
`load_state_dict` raise `NotImplementedError`.  The class does not override
`set`; it inherits `Storage.set`, whose body is the abstract-method stub
`...`.  `Storage` is a plain class (it does not use the `abc.ABCMeta`
metaclass), so the stub is callable: invoking `set` on an ensemble executes
`...` and returns `None` without raising and without touching any state.

Member storages are modelled by their `get` functions `Nat → α`; transforms
by `α → α`.  Each operation returns `(raised error?, post-state)`. -/

structure StorageEnsemble (α : Type) where
  storages : List (Nat → α)
  transforms : Option (List (Option (α → α)))

/-- `StorageEnsemble.extend`: `raise RuntimeError`, members untouched. -/
def ensExtend (e : StorageEnsemble α) (_value : β) :
    Option String × StorageEnsemble α :=
  (some "RuntimeError", e)

/-- `StorageEnsemble.add`: `raise RuntimeError`, members untouched. -/
def ensAdd (e : StorageEnsemble α) (_value : β) :
    Option String × StorageEnsemble α :=
  (some "RuntimeError", e)

/-- `StorageEnsemble.state_dict`: `raise NotImplementedError`. -/
def ensStateDict (e : StorageEnsemble α) :
    Option String × StorageEnsemble α :=
  (some "NotImplementedError", e)

/-- `StorageEnsemble.load_state_dict`: `raise NotImplementedError`. -/
def ensLoadStateDict (e : StorageEnsemble α) (_stateDict : β) :
    Option String × StorageEnsemble α :=
  (some "NotImplementedError", e)

/-- `StorageEnsemble.set` resolves to the inherited `Storage.set`, whose
body is the bare `...` stub: it returns `None`, raising nothing and
mutating nothing (`Storage` has no ABC metaclass, so the abstract marker is
not enforced at call time). -/
def ensSet (e : StorageEnsemble α) (_cursor : ι) (_data : β)
    (_setCursor : Bool) : Option String × StorageEnsemble α :=
  (none, e)

/-- `StorageEnsemble.get(item)`: reads `item["buffer_ids"]` and
`item["index"]`, zips them, and for each pair appends
`(buffer_id, self._storages[buffer_id].get(sample))`; then, if transforms
are present, maps each pair through `self._transforms[buffer_id]` when that
entry is not `None`.  Out-of-range lookups raise (`none`). -/
def ensGet (e : StorageEnsemble α) (bufferIds : List Nat) (index : List Nat) :
    Option (List (Nat × α)) := do
  let results ← (bufferIds.zip index).mapM fun p => do
    let st ← e.storages[p.1]?
    pure (p.1, st p.2)
  match e.transforms with
  | none => pure results
  | some ts =>
    results.mapM fun p => do
      let t ← ts[p.1]?
      match t with
      | some f => pure (p.1, f p.2)
      | none => pure (p.1, p.2)

/-- The transform an ensemble applies to a record fetched for
`buffer_id = b` (identity when no transform list or a `None` entry). -/
def ensApplyTransform (e : StorageEnsemble α) (b : Nat) (r : α) : α :=
  match e.transforms with
  | none => r
  | some ts =>
    match ts.getD b none with
    | some f => f r
    | none => r

/-! ## `CompressedListStorage`

Records are flat tensors or structured tensordicts; a tensor is its raw
byte stream together with the `shape`/`dtype`/`device` attributes recorded
in the compression metadata (`to_bytestream` returns exactly the raw bytes,
and `frombuffer(..).reshape(shape).to(device)` rebuilds the tensor from
bytes plus those attributes).  `dtype` and `device` are opaque tags. -/

structure MTensor where
  data : List Nat
  shape : List Nat
  dtype : Nat
  device : Nat
  deriving Repr, DecidableEq

/-- A non-tensor Python value as it appears in records: `None` or an opaque
(pickled-through) value, here an integer. -/
inductive PyAny where
  | none
  | int (i : Int)
  deriving Repr, DecidableEq

/-- A field of a structured (tensordict) record: a tensor leaf or a
non-tensor value stored as-is. -/
inductive RecField where
  | tensor (t : MTensor)
  | nontensor (v : PyAny)
  deriving Repr, DecidableEq

/-- A record handed to `set`: a flat tensor, a structured tensordict
(ordered fields with a batch size), or any other value (stored as-is by the
compressed storage). -/
inductive Record where
  | tensor (t : MTensor)
  | td (batchSize : List Nat) (fields : List (String × RecField))
  | other (v : PyAny)
  deriving Repr, DecidableEq

/-- A lossless byte codec: the configurable `compression_fn` /
`decompression_fn` pair operates on byte streams (zlib/zstd by default). -/
structure Codec where
  comp : List Nat → List Nat
  decomp : List Nat → List Nat

/-- The identity codec (trivially lossless), used to evaluate the
development on concrete inputs. -/
def idCodec : Codec := ⟨id, id⟩

/-- A codec is lossless when decompression inverts compression. -/
def Codec.Lossless (c : Codec) : Prop :=
  ∀ b, c.decomp (c.comp b) = b

/-- `to_bytestream` on a tensor: `tensor.cpu().numpy().tobytes()`, the raw
byte stream. -/
def toBytestream (t : MTensor) : List Nat :=
  t.data

/-- `_default_compression_fn`: compress the byte stream of the tensor,
yielding a uint8 tensor (modelled as its byte list). -/
def compressionFn (c : Codec) (t : MTensor) : List Nat :=
  c.comp (toBytestream t)

/-- Per-tensor metadata recorded on compression: shape, dtype, device. -/
structure TensorMeta where
  shape : List Nat
  dtype : Nat
  device : Nat
  deriving Repr, DecidableEq

/-- `_default_decompression_fn`: decompress the bytes, reinterpret at the
recorded dtype (`frombuffer`), reshape to the recorded shape, move to the
recorded device. -/
def decompressionFn (c : Codec) (b : List Nat) (m : TensorMeta) : MTensor :=
  ⟨c.decomp b, m.shape, m.dtype, m.device⟩

/-- A compressed field value inside a compressed tensordict:
`compression_fn(value)` for tensor fields, the value as-is otherwise. -/
inductive CField where
  | tensorBytes (b : List Nat)
  | plain (v : PyAny)
  deriving Repr, DecidableEq

/-- A slot of the compressed backing list.  `pynone` is the Python `None` —
both the padding placeholder appended by `_set_item` and the result of
compressing the record `None` (the `other` branch stores the value
itself). -/
inductive CVal where
  | pynone
  | tensorBytes (b : List Nat)
  | fieldsDict (fs : List (String × CField))
  | passInt (i : Int)
  deriving Repr, DecidableEq

/-- Metadata of one compressed field. -/
inductive FieldMeta where
  | tensor (m : TensorMeta)
  | nontensor (v : PyAny)
  deriving Repr, DecidableEq

/-- Metadata of one compressed slot (`_metadata[cursor]`). -/
inductive CMeta where
  | tensor (m : TensorMeta)
  | td (fields : List (String × FieldMeta))
  | other (v : PyAny)
  deriving Repr, DecidableEq

/-- The `other` branch of `_compress_item` stores the value itself in the
slot; a Python `None` record therefore leaves the slot equal to `None`. -/
def pyAnyToCVal : PyAny → CVal
  | .none => .pynone
  | .int i => .passInt i

/-- The per-field write step of `_compress_item` on a tensordict: tensor
fields go through the compression function, non-tensor fields are stored
as-is. -/
def compressField (c : Codec) : RecField → CField
  | .tensor t => .tensorBytes (compressionFn c t)
  | .nontensor v => .plain v

/-- The per-field metadata recorded by `_compress_item` on a tensordict. -/
def fieldMetaOf : RecField → FieldMeta
  | .tensor t => .tensor ⟨t.shape, t.dtype, t.device⟩
  | .nontensor v => .nontensor v

/-- `CompressedListStorage._compress_item`: tensors are compressed with the
compression function and described by shape/dtype/device metadata;
tensordicts are compressed field by field (tensor fields compressed,
non-tensor fields stored as-is with their value recorded in the metadata;
the batch size is *not* recorded); any other value is stored as-is. -/
def compressItem (c : Codec) : Record → CVal × CMeta
  | .tensor t =>
    (.tensorBytes (compressionFn c t), .tensor ⟨t.shape, t.dtype, t.device⟩)
  | .td _bs fs =>
    (.fieldsDict (fs.map fun p => (p.1, compressField c p.2)),
     .td (fs.map fun p => (p.1, fieldMetaOf p.2)))
  | .other v => (pyAnyToCVal v, .other v)

/-- The per-field read step of `_decompress_item` on a tensordict: a
non-tensor field's recorded value is restored verbatim; a tensor field's
compressed bytes are looked up by key in the compressed dict and run
through the decompression function with the recorded metadata.  `none`
models the runtime error on a data/metadata mismatch. -/
def decompressField (c : Codec) (data : CVal) (key : String) :
    FieldMeta → Option (String × RecField)
  | .nontensor v => some (key, .nontensor v)
  | .tensor m =>
    match data with
    | .fieldsDict cfs =>
      match cfs.lookup key with
      | some (.tensorBytes b) =>
        some (key, .tensor (decompressionFn c b m))
      | _ => Option.none
    | _ => Option.none

/-- `CompressedListStorage._decompress_item`: tensor metadata drives the
decompression function; tensordict metadata rebuilds a tensordict with
batch size `metadata.get("batch_size", [])` (always `[]`, as compression
never records one), restoring each field with `decompressField` in
metadata order; `other` metadata returns the recorded value. -/
def decompressItem (c : Codec) (data : CVal) : CMeta → Option Record
  | .tensor m =>
    match data with
    | .tensorBytes b => some (.tensor (decompressionFn c b m))
    | _ => Option.none
  | .td fs => do
    let fields ← fs.mapM fun p => decompressField c data p.1 p.2
    pure (.td [] fields)
  | .other v => some (.other v)

/-- The state of a `CompressedListStorage`: the compressed slot list and
the parallel metadata list (`None` placeholders before a slot is written). -/
structure CompressedListStorage where
  maxSize : Nat
  storage : List CVal
  metadata : List (Option CMeta)
  deriving Repr, DecidableEq

/-- A fresh `CompressedListStorage(max_size)`. -/
def freshCLS (maxSize : Nat) : CompressedListStorage :=
  ⟨maxSize, [], []⟩

/-- `CompressedListStorage._set_item`: pad both lists with `None`
placeholders (`while len(self._storage) <= cursor`), then compress and
store at `cursor` (a non-negative index after the inherited checks). -/
def clsSetItem (c : Codec) (s : CompressedListStorage) (cursor : Nat)
    (r : Record) : CompressedListStorage :=
  let pad := cursor + 1 - s.storage.length
  let storage := s.storage ++ List.replicate pad CVal.pynone
  let metadata := s.metadata ++ List.replicate pad Option.none
  let (cd, m) := compressItem c r
  { s with storage := storage.set cursor cd,
           metadata := metadata.set cursor (some m) }

/-- `CompressedListStorage.set` with a scalar integer cursor: the inherited
`ListStorage.set` checks (skip-ahead past the raw list length; cursor at or
past `max_size`) followed by the overridden `_set_item`. -/
def clsSetInt (c : Codec) (s : CompressedListStorage) (cursor : Int)
    (r : Record) : CompressedListStorage × Option String :=
  if cursor > (s.storage.length : Int) then
    (s, some "RuntimeError: Cannot append data located more than one item away from the storage size")
  else if cursor ≥ (s.maxSize : Int) then
    (s, some "RuntimeError: Cannot append data to the list storage: maximum capacity reached")
  else if 0 ≤ cursor then
    (clsSetItem c s cursor.toNat r, none)
  else
    -- negative cursor: the padding loop is a no-op and `_storage[cursor]`
    -- assigns with Python negative-index semantics
    match pySetItem s.storage cursor (compressItem c r).1,
          pySetItem s.metadata cursor (some (compressItem c r).2) with
    | some st, some md => ({ s with storage := st, metadata := md }, none)
    | _, _ => (s, some "IndexError")

/-- `CompressedListStorage._get_item`: `IndexError` when the index is at or
past the raw list length or the slot is `None`; otherwise decompress the
slot with its metadata (a missing metadata entry crashes in the source;
modelled as an error). -/
def clsGetItem (c : Codec) (s : CompressedListStorage) (i : Nat) :
    Except String Record :=
  if i ≥ s.storage.length then .error "IndexError: Index out of bounds or not set"
  else
    match s.storage[i]? with
    | some .pynone => .error "IndexError: Index out of bounds or not set"
    | some cd =>
      match s.metadata[i]? with
      | some (some m) =>
        match decompressItem c cd m with
        | some r => .ok r
        | Option.none => .error "TypeError"
      | _ => .error "TypeError"
    | Option.none => .error "IndexError: Index out of bounds or not set"

/-- `CompressedListStorage.__len__`: the number of non-`None` slots, not
the raw length of the backing list. -/
def clsLen (s : CompressedListStorage) : Nat :=
  (s.storage.filter (· ≠ CVal.pynone)).length

/-- `compressed_size_from_list` on one slot: `None` counts 0; a
uint8 tensor counts its byte size; a mapping sums over its values (tensor
fields count their bytes, other values fall to the 0 default); ints fall to
the 0 default. -/
def csizeField : CField → Nat
  | .tensorBytes b => b.length
  | .plain _ => 0

def csize : CVal → Nat
  | .pynone => 0
  | .tensorBytes b => b.length
  | .fieldsDict fs => (fs.map (fun p => csizeField p.2)).sum
  | .passInt _ => 0

/-- `CompressedListStorage.bytes()`: sum `compressed_size_from_list` over
the backing list; when the sum is zero, raise if the backing list is
non-empty, otherwise warn and return 0.  The boolean records whether the
warning was emitted. -/
def clsBytes (s : CompressedListStorage) : Except String (Nat × Bool) :=
  if (s.storage.map csize).sum = 0 then
    if 0 < s.storage.length then
      .error "RuntimeError: Compressed storage is not empty but the compressed size is 0. This is a bug."
    else
      .ok ((s.storage.map csize).sum, true)
  else
    .ok ((s.storage.map csize).sum, false)

/-- `CompressedListStorage.set` with a sequence cursor (inherited
`ListStorage.set` dispatch: strict zip, item-by-item recursion into the
scalar path). -/
def clsSetSeq (c : Codec) (s : CompressedListStorage) :
    List Int → List Record → CompressedListStorage × Option String
  | [], [] => (s, none)
  | i :: is_, d :: ds =>
    match clsSetInt c s i d with
    | (s', none) => clsSetSeq c s' is_ ds
    | (s', some e) => (s', some e)
  | _, _ => (s, some "ValueError: zip() argument lengths differ")

/-- `CompressedListStorage._set_slice` for a step-1 slice:
`slice.indices` against the raw list length, then `_set_item` on each
index zipped (non-strictly) with the data. -/
def clsSetSlice (c : Codec) (s : CompressedListStorage)
    (start stop : Option Int) (ds : List Record) : CompressedListStorage :=
  ((List.range' (sliceIdx s.storage.length start 0)
      (sliceIdx s.storage.length stop s.storage.length -
        sliceIdx s.storage.length start 0)).zip ds).foldl
    (fun acc p => clsSetItem c acc p.1 p.2) s

/-- A `set` call on a `CompressedListStorage`, by cursor kind. -/
inductive CLSOp where
  | int (cursor : Int) (r : Record)
  | slice (start stop : Option Int) (ds : List Record)
  | seq (cs : List Int) (ds : List Record)

/-- `CompressedListStorage.set`: cursor-kind dispatch of the inherited
`ListStorage.set` over the overridden `_set_item` / `_set_slice`. -/
def clsSet (c : Codec) (s : CompressedListStorage) :
    CLSOp → CompressedListStorage × Option String
  | .int cursor r => clsSetInt c s cursor r
  | .slice a b ds => (clsSetSlice c s a b ds, none)
  | .seq cs ds => clsSetSeq c s cs ds

/-- Run a sequence of `set` calls on a `CompressedListStorage`. -/
def clsRun (c : Codec) (s : CompressedListStorage) (ops : List CLSOp) :
    CompressedListStorage :=
  ops.foldl (fun st op => (clsSet c st op).1) s

/-- A `set` call on a `TensorStorage` (`ndim = 1` model): scalar cursor
writing one row, or an index-sequence cursor writing a batch of rows. -/
inductive TSOp (α : Type) where
  | int (c : Nat) (d : α) (setCursor : Bool)
  | seq (cs : List Nat) (ds : List α) (setCursor : Bool)

/-- `TensorStorage.set` dispatch over `TSOp`. -/
def tsSet (s : TensorStorage α) : TSOp α → TensorStorage α × Option String
  | .int c d sc => tsSetInt s c d sc
  | .seq cs ds sc => tsSetSeq s cs ds sc

/-- Run a sequence of `set` calls on a `TensorStorage`. -/
def tsRun (s : TensorStorage α) (ops : List (TSOp α)) : TensorStorage α :=
  ops.foldl (fun st op => (tsSet st op).1) s

/-- Whether a `ListStorage` `set` call uses a slice cursor. -/
def LSOp.usesSlice : LSOp α → Bool
  | .slice _ _ _ => true
  | _ => false

/-! ## Helper lemmas -/

theorem pySetItem_length {l l' : List α} {i : Int} {x : α}
    (h : pySetItem l i x = some l') : l'.length = l.length := by
  unfold pySetItem at h
  split at h
  · cases h; simp
  · cases h

theorem pySetItem_getItem {l l' : List α} {i : Int} {x : α}
    (h : pySetItem l i x = some l') : pyGetItem l' i = some x := by
  have hlen := pySetItem_length h
  unfold pySetItem at h
  split at h
  · rename_i hc
    cases h
    unfold pyGetItem
    rw [hlen]
    rw [if_pos hc]
    have h0 : 0 ≤ pyResolve l.length i := hc.1
    have h2 : pyResolve l.length i < (l.length : Int) := hc.2
    have h1 : (pyResolve l.length i).toNat < l.length := by omega
    simp [List.getElem?_set_self', h1]
  · cases h

/-! ## Claim C3 -/

/-- C3: for every `ListStorage` with capacity `max_size` and every scalar
integer cursor `c`: `set(c, record)` appends when `c` equals the current
length and overwrites the existing slot when `c < length`; it fails with a
range error when `c > length` (skip-ahead) or `c >= max_size`.  In
particular, with `max_size = 5`, writing at cursors 0, 1, 2 succeeds, then
writing directly at cursor 4 fails, and writing at cursor 5 fails. -/
theorem listStorage_scalar_set_discipline (α : Type) (s : ListStorage α)
    (c : Nat) (x : α) :
    ((c > s.storage.length ∨ c ≥ s.maxSize) →
      (lsSetInt s c x).1 = s ∧ (lsSetInt s c x).2.isSome = true) ∧
    (c = s.storage.length → c < s.maxSize →
      lsSetInt s c x = ({ s with storage := s.storage ++ [x] }, none)) ∧
    (c < s.storage.length → c < s.maxSize →
      lsSetInt s c x = ({ s with storage := s.storage.set c x }, none)) ∧
    (lsSetSeq (freshList Nat 5) [0, 1, 2] [10, 11, 12] =
      (⟨5, [10, 11, 12]⟩, none)) ∧
    ((lsSetInt (⟨5, [10, 11, 12]⟩ : ListStorage Nat) 4 20).1 = ⟨5, [10, 11, 12]⟩ ∧
      (lsSetInt (⟨5, [10, 11, 12]⟩ : ListStorage Nat) 4 20).2.isSome = true) ∧
    ((lsSetInt (⟨5, [10, 11, 12]⟩ : ListStorage Nat) 5 20).1 = ⟨5, [10, 11, 12]⟩ ∧
      (lsSetInt (⟨5, [10, 11, 12]⟩ : ListStorage Nat) 5 20).2.isSome = true) := by
  refine ⟨?_, ?_, ?_, by decide, by decide, by decide⟩
  · intro h
    unfold lsSetInt
    rcases h with h | h
    · rw [if_pos (by exact_mod_cast h)]
      exact ⟨rfl, rfl⟩
    · by_cases hgt : (c : Int) > s.storage.length
      · rw [if_pos hgt]; exact ⟨rfl, rfl⟩
      · rw [if_neg hgt, if_pos (by exact_mod_cast h)]
        exact ⟨rfl, rfl⟩
  · intro hc hmax
    unfold lsSetInt
    rw [if_neg (by omega), if_neg (by exact_mod_cast not_le.mpr hmax),
      if_pos (by exact_mod_cast hc)]
  · intro hlt hmax
    unfold lsSetInt
    rw [if_neg (by exact_mod_cast not_lt.mpr (Nat.le_of_lt hlt)),
      if_neg (by exact_mod_cast not_le.mpr hmax), if_neg (by omega)]
    unfold pySetItem
    have hres : pyResolve s.storage.length c = c := by
      unfold pyResolve; rw [if_neg (by omega)]
    rw [hres, if_pos ⟨by omega, by exact_mod_cast hlt⟩]
    simp

/-- Witness for C3 at concrete inputs: a storage `[10, 11, 12]` with
`max_size = 5`; cursor 3 appends, cursor 1 overwrites, cursor 4 and
cursor 5 fail. -/
theorem listStorage_scalar_set_discipline_witness :
    (lsSetInt (⟨5, [10, 11, 12]⟩ : ListStorage Nat) 3 13 =
      (⟨5, [10, 11, 12, 13]⟩, none)) ∧
    (lsSetInt (⟨5, [10, 11, 12]⟩ : ListStorage Nat) 1 99 =
      (⟨5, [10, 99, 12]⟩, none)) ∧
    ((lsSetInt (⟨5, [10, 11, 12]⟩ : ListStorage Nat) 4 20).2.isSome = true) := by
  refine ⟨?_, ?_, ?_⟩
  · exact (listStorage_scalar_set_discipline Nat ⟨5, [10, 11, 12]⟩ 3 13).2.1
      (by decide) (by decide)
  · exact (listStorage_scalar_set_discipline Nat ⟨5, [10, 11, 12]⟩ 1 99).2.2.1
      (by decide) (by decide)
  · exact ((listStorage_scalar_set_discipline Nat ⟨5, [10, 11, 12]⟩ 4 20).1
      (by decide)).2

/-! ## Claim C10 -/

/-- C10: for every `ListStorage` (the `get` dispatcher is shared with its
subclasses) and every tuple index `t`: if `t` has more than one element,
`get` raises a `RuntimeError`; if `t` has exactly one element, `get(t)`
returns the same result as `get(t[0])`. -/
theorem listStorage_get_tuple_dispatch (α : Type) (s : ListStorage α)
    (ts : List GetIndex) (t : GetIndex) :
    (ts.length > 1 →
      lsGet s (.tup ts) =
        .error "RuntimeError: ListStorage can only be indexed with one-length tuples.") ∧
    lsGet s (.tup [t]) = lsGet s t := by
  constructor
  · intro h
    match ts, h with
    | _ :: _ :: _, _ => rfl
  · rfl

/-- Witness for C10 at a concrete storage and tuple indices. -/
theorem listStorage_get_tuple_dispatch_witness :
    lsGet (⟨4, [7, 8]⟩ : ListStorage Nat) (.tup [.int 0, .int 1]) =
      .error "RuntimeError: ListStorage can only be indexed with one-length tuples." ∧
    lsGet (⟨4, [7, 8]⟩ : ListStorage Nat) (.tup [.int 1]) =
      lsGet (⟨4, [7, 8]⟩ : ListStorage Nat) (.int 1) :=
  ⟨(listStorage_get_tuple_dispatch Nat ⟨4, [7, 8]⟩ [.int 0, .int 1] (.int 0)).1
      (by decide),
    (listStorage_get_tuple_dispatch Nat ⟨4, [7, 8]⟩ [] (.int 1)).2⟩

/-! ## Claim C4 -/

/-- Python's `-(a // -b)` on naturals is the ceiling of `a / b`. -/
theorem pyCeilDiv_eq (a b : Nat) (hb : 0 < b) :
    pyCeilDiv a b = (((a + b - 1) / b : Nat) : Int) := by
  obtain ⟨n, rfl⟩ : ∃ n, b = n + 1 := ⟨b - 1, by omega⟩
  cases a with
  | zero =>
    show -(Int.fdiv 0 (-((n + 1 : Nat) : Int))) = _
    have h0 : Int.fdiv 0 (-((n + 1 : Nat) : Int)) = 0 := rfl
    rw [h0]
    rw [Nat.div_eq_of_lt (by omega)]
    rfl
  | succ m =>
    unfold pyCeilDiv
    have h2' : -(((n + 1 : Nat) : Int)) = Int.negSucc n := by
      rw [Int.negSucc_eq]; push_cast; ring
    rw [show ((m + 1 : Nat) : Int) = Int.ofNat (m + 1) from rfl, h2']
    have h3 : Int.fdiv (Int.ofNat (m + 1)) (Int.negSucc n) =
        Int.negSucc (m / (n + 1)) := rfl
    rw [h3]
    have h4 : (m + 1 + (n + 1) - 1) / (n + 1) = m / (n + 1) + 1 := by
      have he : m + 1 + (n + 1) - 1 = m + (n + 1) := by omega
      rw [he, Nat.add_div_right _ (by omega)]
    rw [h4, Int.negSucc_eq]
    push_cast
    ring

/-- Ceiling division rounds up: `a ≤ b * ⌈a/b⌉`. -/
theorem le_ceil_mul (a b : Nat) (hb : 0 < b) : a ≤ b * ((a + b - 1) / b) := by
  have h1 := Nat.div_add_mod (a + b - 1) b
  have h2 : (a + b - 1) % b < b := Nat.mod_lt _ hb
  omega

/-- `⌈a/b⌉ * b` is the least multiple of `b` at least `a`. -/
theorem ceil_mul_le (a b m : Nat) (hb : 0 < b) (hd : b ∣ m) (h : a ≤ m) :
    ((a + b - 1) / b) * b ≤ m := by
  obtain ⟨k, rfl⟩ := hd
  have hq : (a + b - 1) / b < k + 1 := by
    rw [Nat.div_lt_iff_lt_mul hb]
    calc a + b - 1 < b * k + b := by omega
    _ = (k + 1) * b := by ring
  calc ((a + b - 1) / b) * b ≤ k * b := Nat.mul_le_mul_right _ (by omega)
  _ = b * k := Nat.mul_comm _ _

/-- C4: for a pre-allocated (lazy tensor or memory-mapped) storage with
`ndim > 1`, the first write computes the capacity along axis 0 as
`ceil(max_size / row_size)` and adjusts `max_size` upward to the nearest
exact multiple of the row size (`row_size` being the element count of the
first record's row shape, i.e. its leading `ndim - 1` axes); in particular
`max_size = 100`, `ndim = 2` and first-record row-shape `[7]` yield 15
rows along axis 0 and adjusted `max_size = 105`. -/
theorem lazy_init_capacity_rounding (maxSize ndim : Nat) (dataShape : List Nat)
    (hnd : 1 < ndim) (hrow : dataShape.length = ndim - 1)
    (hpos : 0 < numel dataShape) :
    (maxSizeAlongDim0 maxSize ndim dataShape).1 =
      (maxSize + numel dataShape - 1) / numel dataShape :: dataShape ∧
    (maxSizeAlongDim0 maxSize ndim dataShape).2 =
      ((maxSize + numel dataShape - 1) / numel dataShape) * numel dataShape ∧
    numel dataShape ∣ (maxSizeAlongDim0 maxSize ndim dataShape).2 ∧
    maxSize ≤ (maxSizeAlongDim0 maxSize ndim dataShape).2 ∧
    (∀ m, numel dataShape ∣ m → maxSize ≤ m →
      (maxSizeAlongDim0 maxSize ndim dataShape).2 ≤ m) ∧
    maxSizeAlongDim0 100 2 [7] = ([15, 7], 105) := by
  have htake : dataShape.take (ndim - 1) = dataShape := by
    rw [← hrow]; exact List.take_length _
  have hrows : (pyCeilDiv maxSize (numel (dataShape.take (ndim - 1)))).toNat =
      (maxSize + numel dataShape - 1) / numel dataShape := by
    rw [htake, pyCeilDiv_eq _ _ hpos, Int.toNat_natCast]
  have h1 : (maxSizeAlongDim0 maxSize ndim dataShape).1 =
      (maxSize + numel dataShape - 1) / numel dataShape :: dataShape := by
    unfold maxSizeAlongDim0
    rw [if_pos hnd, hrows]
  have h2 : (maxSizeAlongDim0 maxSize ndim dataShape).2 =
      ((maxSize + numel dataShape - 1) / numel dataShape) * numel dataShape := by
    unfold maxSizeAlongDim0
    rw [if_pos hnd, hrows]
    show numel (_ :: dataShape) = _
    unfold numel
    rw [List.prod_cons]
  refine ⟨h1, h2, ?_, ?_, ?_, by decide⟩
  · rw [h2]
    exact ⟨(maxSize + numel dataShape - 1) / numel dataShape, by ring⟩
  · rw [h2, Nat.mul_comm]; exact le_ceil_mul _ _ hpos
  · intro m hd hm
    rw [h2]
    exact ceil_mul_le _ _ _ hpos hd hm

/-- Witness for C4 at the claim's concrete instance:
`max_size = 100`, `ndim = 2`, row-shape `[7]`. -/
theorem lazy_init_capacity_rounding_witness :
    (maxSizeAlongDim0 100 2 [7]).1 = [15, 7] ∧
    (maxSizeAlongDim0 100 2 [7]).2 = 105 ∧
    100 ≤ (maxSizeAlongDim0 100 2 [7]).2 ∧
    (∀ m, 7 ∣ m → 100 ≤ m → (maxSizeAlongDim0 100 2 [7]).2 ≤ m) := by
  have h := lazy_init_capacity_rounding 100 2 [7] (by decide) (by decide) (by decide)
  exact ⟨by decide, by decide, h.2.2.2.1, fun m hd hm => h.2.2.2.2.1 m hd hm⟩

/-! ## Claim C5 -/

/-- Counterexample to C5: the claim asserts that `set` on a
`StorageEnsemble` fails fatally (raises), but `StorageEnsemble` does not
override `set` and `Storage` is not an ABC, so the inherited abstract stub
executes `...` and returns `None`: at this concrete ensemble the call
raises nothing. -/
theorem storageEnsemble_set_does_not_raise :
    (ensSet (⟨[fun i => i, fun i => 100 + i], Option.none⟩ : StorageEnsemble Nat)
      (0 : Nat) (0 : Nat) true).1 = Option.none := rfl

/-- C5 (amended): `extend`, `add`, `state_dict` and `load_state_dict` on a
`StorageEnsemble` raise (`RuntimeError` for the first two,
`NotImplementedError` for the last two) and leave every member storage
unchanged; `set` does not raise — it resolves to the inherited
abstract-method stub, returns `None`, and also leaves every member storage
unchanged. -/
theorem storageEnsemble_mutation_ops (α β γ δ : Type) (e : StorageEnsemble α)
    (v : β) (sd : γ) (cursor : δ) (d : β) (sc : Bool) :
    ensExtend e v = (some "RuntimeError", e) ∧
    ensAdd e v = (some "RuntimeError", e) ∧
    ensStateDict e = (some "NotImplementedError", e) ∧
    ensLoadStateDict e sd = (some "NotImplementedError", e) ∧
    ensSet e cursor d sc = (Option.none, e) :=
  ⟨rfl, rfl, rfl, rfl, rfl⟩

/-! ## Claim C8 -/

/-- Counterexample to C8: the claim asserts that `set(cursor, record,
set_cursor=False)` leaves `len(storage)` unchanged for every storage
variant; on a fresh `ListStorage(max_size=5)`, `set(0, 42,
set_cursor=False)` appends (`len` 0 becomes 1), because the list storage's
length is the backing list's length and the scalar path never consults
`set_cursor`. -/
theorem listStorage_set_cursor_false_changes_len :
    lsLen ((lsSet (freshList Nat 5) (.int 0 42) false).1) = 1 ∧
    lsLen (freshList Nat 5) = 0 := by decide

/-- C8 (amended): `set(cursor, record, set_cursor=False)` leaves `len`
unchanged for `TensorStorage`-family storages (scalar and index-sequence
cursors); for list-backed storages it leaves the length unchanged when it
overwrites an existing slot (`cursor < length`), but an append still grows
the length, which is derived from the backing list. -/
theorem set_cursor_false_preserves_len (α : Type) :
    (∀ (s : TensorStorage α) (c : Nat) (d : α),
      tsLen (tsSetInt s c d false).1 = tsLen s) ∧
    (∀ (s : TensorStorage α) (cs : List Nat) (ds : List α),
      tsLen (tsSetSeq s cs ds false).1 = tsLen s) ∧
    (∀ (s : ListStorage α) (c : Int) (x : α), c < (s.storage.length : Int) →
      lsLen (lsSet s (.int c x) false).1 = lsLen s) := by
  refine ⟨?_, ?_, ?_⟩
  · intro s c d
    unfold tsSetInt tsInit tsLen
    dsimp only
    split <;> split <;> split <;> simp_all
  · intro s cs ds
    unfold tsSetSeq tsInit tsLen
    dsimp only
    split <;> split <;> split <;> simp_all
  · intro s c x hc
    show lsLen (lsSetInt s c x).1 = lsLen s
    unfold lsSetInt
    split
    · rfl
    · split
      · rfl
      · split
        · omega
        · rename_i h1 h2 h3
          unfold lsLen
          cases hp : pySetItem s.storage c x with
          | none => rfl
          | some l' => exact pySetItem_length hp

/-- Witness for the amended C8 at concrete inputs. -/
theorem set_cursor_false_preserves_len_witness :
    tsLen (tsSetInt (⟨3, 2, true, [some 5, some 6, none]⟩ : TensorStorage Nat)
      1 9 false).1 = 2 ∧
    lsLen (lsSet (⟨4, [1, 2, 3]⟩ : ListStorage Nat) (.int 1 9) false).1 = 3 :=
  ⟨(set_cursor_false_preserves_len Nat).1 ⟨3, 2, true, [some 5, some 6, none]⟩ 1 9,
    (set_cursor_false_preserves_len Nat).2.2 ⟨4, [1, 2, 3]⟩ 1 9 (by decide)⟩

/-! ## Claim C6 -/

theorem mapM_option_eq_map {β γ : Type} (f : β → Option γ) (g : β → γ) :
    ∀ (l : List β), (∀ x ∈ l, f x = some (g x)) → l.mapM f = some (l.map g)
  | [], _ => rfl
  | x :: xs, h => by
    rw [List.mapM_cons, h x (by simp),
      mapM_option_eq_map f g xs (fun y hy => h y (by simp [hy]))]
    rfl

/-- C6: for every `StorageEnsemble` with member storages and optional
per-member transforms, `get` on an index object with parallel `buffer_ids`
and `index` sequences returns, in order, one `(buffer_id, record)` pair per
position, where `record` is the identified member's `get` result with that
member's transform applied when present. -/
theorem storageEnsemble_get_routing (α : Type) (x0 : α) (e : StorageEnsemble α)
    (bids idx : List Nat)
    (hb : ∀ b ∈ bids, b < e.storages.length)
    (ht : ∀ ts, e.transforms = some ts → ∀ b ∈ bids, b < ts.length) :
    ensGet e bids idx =
      some ((bids.zip idx).map fun p =>
        (p.1, ensApplyTransform e p.1 (e.storages.getD p.1 (fun _ => x0) p.2))) := by
  have h1 : ∀ p ∈ bids.zip idx,
      (do
        let st ← e.storages[p.1]?
        pure (p.1, st p.2) : Option (Nat × α)) =
        some (p.1, e.storages.getD p.1 (fun _ => x0) p.2) := by
    intro p hp
    have hmem : p.1 < e.storages.length := hb p.1 (List.of_mem_zip hp).1
    rw [List.getElem?_eq_getElem hmem, List.getD_eq_getElem _ _ hmem]
    rfl
  unfold ensGet
  rw [mapM_option_eq_map _
    (fun p => (p.1, e.storages.getD p.1 (fun _ => x0) p.2)) _ h1]
  cases htr : e.transforms with
  | none =>
    show some _ = _
    congr 1
    apply List.map_congr_left
    intro p _
    unfold ensApplyTransform
    rw [htr]
  | some ts =>
    show ((bids.zip idx).map fun p =>
        (p.1, e.storages.getD p.1 (fun _ => x0) p.2)).mapM _ = _
    rw [mapM_option_eq_map _
      (fun q => (q.1, ensApplyTransform e q.1 q.2)) _ ?_]
    · rw [List.map_map]
      congr 1
    · intro q hq
      obtain ⟨p, hp, rfl⟩ := List.mem_map.mp hq
      have hql : p.1 < ts.length := ht ts htr p.1 (List.of_mem_zip hp).1
      rw [List.getElem?_eq_getElem hql]
      unfold ensApplyTransform
      rw [htr]
      dsimp only
      rw [List.getD_eq_getElem _ _ hql]
      cases ts[p.1] <;> rfl

/-- Witness for C6 at the claim's example: members A (id 0) and B (id 1),
`get({buffer_ids: [0, 1], index: [2, 3]})` returns
`[(0, A.get(2)), (1, B.get(3))]`. -/
theorem storageEnsemble_get_routing_witness :
    ensGet (⟨[fun i => 10 + i, fun i => 100 + i], Option.none⟩ :
        StorageEnsemble Nat) [0, 1] [2, 3] =
      some [(0, 12), (1, 103)] := by
  rw [storageEnsemble_get_routing Nat 0
    ⟨[fun i => 10 + i, fun i => 100 + i], Option.none⟩ [0, 1] [2, 3]
    (by decide) (fun ts hts => by cases hts)]
  rfl

theorem getNewLen_seq (l m k : Nat) :
    getNewLen l m 1 [k] false = min (l + k) m := by
  unfold getNewLen numel
  simp

theorem getNewLen_int (l m : Nat) :
    getNewLen l m 1 [] true = min (l + 1) m := by
  unfold getNewLen numel
  simp

/-! ## Claim C2 -/

theorem lookup_map_snd (g : RecField → CField) :
    ∀ (fs : List (String × RecField)) (k : String),
    ((fs.map fun p => (p.1, g p.2)).lookup k) = (fs.lookup k).map g
  | [], _ => rfl
  | p :: fs, k => by
    obtain ⟨k', v⟩ := p
    show List.lookup k ((k', g v) :: fs.map fun p => (p.1, g p.2)) = _
    rw [List.lookup_cons, List.lookup_cons]
    cases hk : k == k' with
    | true => rfl
    | false => exact lookup_map_snd g fs k

theorem lookup_self : ∀ (fs : List (String × RecField)),
    (fs.map Prod.fst).Nodup → ∀ p ∈ fs, fs.lookup p.1 = some p.2
  | [], _, p, hp => absurd hp (by simp)
  | q :: fs, hnd, p, hp => by
    rcases List.mem_cons.mp hp with rfl | hmem
    · show List.lookup p.1 ((p.1, p.2) :: fs) = some p.2
      rw [List.lookup_cons]
      rw [show (p.1 == p.1) = true from beq_self_eq_true p.1]
    · have hnd' : q.1 ∉ fs.map Prod.fst ∧ (fs.map Prod.fst).Nodup := by
        rw [← List.nodup_cons]
        simpa using hnd
      have hk : p.1 ≠ q.1 := by
        intro he
        exact hnd'.1 (he ▸ List.mem_map_of_mem Prod.fst hmem)
      show List.lookup p.1 ((q.1, q.2) :: fs) = some p.2
      rw [List.lookup_cons,
        show (p.1 == q.1) = false from beq_eq_false_iff_ne.mpr hk]
      exact lookup_self fs hnd'.2 p hmem

theorem cfs_lookup_of_nodup (c : Codec) (fs : List (String × RecField))
    (hnd : (fs.map Prod.fst).Nodup) (p : String × RecField) (hp : p ∈ fs)
    (t : MTensor) (ht : p.2 = .tensor t) :
    (fs.map fun q => (q.1, compressField c q.2)).lookup p.1 =
      some (.tensorBytes (compressionFn c t)) := by
  rw [lookup_map_snd (compressField c) fs p.1, lookup_self fs hnd p hp, ht]
  rfl

theorem mapM_decompressField (c : Codec) (hl : c.Lossless)
    (cfs : List (String × CField)) :
    ∀ (fs : List (String × RecField)),
    (∀ p ∈ fs, ∀ t, p.2 = RecField.tensor t →
        cfs.lookup p.1 = some (.tensorBytes (compressionFn c t))) →
    (fs.map fun p => (p.1, fieldMetaOf p.2)).mapM
        (fun p => decompressField c (.fieldsDict cfs) p.1 p.2) = some fs
  | [], _ => rfl
  | p :: fs, hp => by
    obtain ⟨k, f⟩ := p
    rw [List.map_cons, List.mapM_cons]
    have hhead : decompressField c (.fieldsDict cfs) k (fieldMetaOf f) =
        some (k, f) := by
      cases f with
      | nontensor v => rfl
      | tensor t =>
        have hlk : cfs.lookup k = some (.tensorBytes (compressionFn c t)) :=
          hp (k, .tensor t) (by simp) t rfl
        show decompressField c (.fieldsDict cfs) k
          (.tensor ⟨t.shape, t.dtype, t.device⟩) = _
        unfold decompressField
        dsimp only
        rw [hlk]
        show some (k, RecField.tensor
          (decompressionFn c (compressionFn c t) ⟨t.shape, t.dtype, t.device⟩))
          = _
        unfold decompressionFn compressionFn toBytestream
        rw [hl]
    rw [hhead,
      mapM_decompressField c hl cfs fs
        (fun q hq t ht => hp q (by simp [hq]) t ht)]
    rfl

theorem decompress_compress_tensor (c : Codec) (hl : c.Lossless)
    (t : MTensor) :
    decompressItem c (compressItem c (.tensor t)).1
      (compressItem c (.tensor t)).2 = some (.tensor t) := by
  show some (Record.tensor (decompressionFn c (compressionFn c t)
    ⟨t.shape, t.dtype, t.device⟩)) = some (Record.tensor t)
  unfold decompressionFn compressionFn toBytestream
  rw [hl]

theorem decompress_compress_td (c : Codec) (hl : c.Lossless)
    (bs : List Nat) (fs : List (String × RecField))
    (hnd : (fs.map Prod.fst).Nodup) :
    decompressItem c (compressItem c (.td bs fs)).1
      (compressItem c (.td bs fs)).2 = some (.td [] fs) := by
  show decompressItem c (.fieldsDict (fs.map fun p => (p.1, compressField c p.2)))
    (.td (fs.map fun p => (p.1, fieldMetaOf p.2))) = _
  unfold decompressItem
  dsimp only
  rw [mapM_decompressField c hl _ fs
    (fun p hp t ht => cfs_lookup_of_nodup c fs hnd p hp t ht)]
  rfl

theorem clsSetItem_slots (cd : Codec) (s : CompressedListStorage) (cur : Nat)
    (r : Record) (hm : s.metadata.length = s.storage.length) :
    cur < (clsSetItem cd s cur r).storage.length ∧
    (clsSetItem cd s cur r).storage[cur]? = some (compressItem cd r).1 ∧
    (clsSetItem cd s cur r).metadata[cur]? =
      some (some (compressItem cd r).2) := by
  have hlen : (clsSetItem cd s cur r).storage.length =
      max s.storage.length (cur + 1) := by
    show ((s.storage ++ List.replicate (cur + 1 - s.storage.length)
      CVal.pynone).set cur (compressItem cd r).1).length = _
    simp only [List.length_set, List.length_append, List.length_replicate]
    omega
  have hcur : cur < (clsSetItem cd s cur r).storage.length := by omega
  refine ⟨hcur, ?_, ?_⟩
  · show ((s.storage ++
      List.replicate (cur + 1 - s.storage.length) CVal.pynone).set cur
        (compressItem cd r).1)[cur]? = _
    apply List.getElem?_set_self
    simp only [List.length_append, List.length_replicate]
    omega
  · show ((s.metadata ++
      List.replicate (cur + 1 - s.storage.length) Option.none).set cur
        (some (compressItem cd r).2))[cur]? = _
    apply List.getElem?_set_self
    simp only [List.length_append, List.length_replicate]
    omega

theorem clsSetInt_success (cd : Codec) (s : CompressedListStorage) (cur : Int)
    (r : Record) (s' : CompressedListStorage) (hcur : 0 ≤ cur)
    (hset : clsSetInt cd s cur r = (s', none)) :
    s' = clsSetItem cd s cur.toNat r := by
  unfold clsSetInt at hset
  by_cases h1 : cur > (s.storage.length : Int)
  · rw [if_pos h1] at hset
    exact absurd (congrArg Prod.snd hset) (by simp)
  · rw [if_neg h1] at hset
    by_cases h2 : cur ≥ (s.maxSize : Int)
    · rw [if_pos h2] at hset
      exact absurd (congrArg Prod.snd hset) (by simp)
    · rw [if_neg h2, if_pos hcur] at hset
      exact (congrArg Prod.fst hset).symm

/-- C2: for every supported record (flat tensor or structured tensordict)
and every valid scalar cursor, `set(cursor, record)` followed by `get` at
the same cursor returns a value equal to `record`: verbatim for the
list-backed storage, row-exact for the tensor storage, and — for
`CompressedListStorage` with a lossless codec — exactly matching the
original in bytes, shape, dtype and device for every tensor leaf, with
non-tensor fields passed through verbatim (the reconstructed tensordict
carries the decompressor's default empty batch size, which the claim does
not constrain). -/
theorem set_get_roundtrip :
    (∀ (α : Type) (s : ListStorage α) (c : Int) (x : α)
        (s' : ListStorage α), lsSetInt s c x = (s', none) →
      lsGet s' (.int c) = .ok (.one x)) ∧
    (∀ (α : Type) (s : TensorStorage α) (c : Nat) (d : α),
      s.initialized = true → s.buf.length = s.maxSize → c < s.maxSize →
      c ≤ s.len → tsGetInt (tsSetInt s c d true).1 c = .ok (some d)) ∧
    (∀ (cd : Codec), cd.Lossless →
      ∀ (s : CompressedListStorage) (cur : Int) (r : Record)
        (s' : CompressedListStorage),
        s.metadata.length = s.storage.length → 0 ≤ cur →
        clsSetInt cd s cur r = (s', none) →
        (∀ t, r = .tensor t → clsGetItem cd s' cur.toNat = .ok (.tensor t)) ∧
        (∀ bs fs, r = .td bs fs → (fs.map Prod.fst).Nodup →
          clsGetItem cd s' cur.toNat = .ok (.td [] fs))) := by
  refine ⟨?_, ?_, ?_⟩
  · intro α s c x s' hset
    unfold lsSetInt at hset
    split at hset
    · cases hset
    · split at hset
      · cases hset
      · split at hset
        · rename_i h1 h2 h3
          have hs' : s' = { s with storage := s.storage ++ [x] } :=
            (congrArg Prod.fst hset).symm
          subst hs'
          have hres : pyResolve (s.storage ++ [x]).length c = c := by
            unfold pyResolve
            rw [if_neg (by omega)]
          show (match pyGetItem (s.storage ++ [x]) c with
            | some a => Except.ok (GetOut.one a)
            | Option.none => Except.error "IndexError") = _
          unfold pyGetItem
          rw [hres, if_pos ⟨by omega, by
            simp only [List.length_append, List.length_cons, List.length_nil]
            push_cast
            omega⟩]
          have hc : ((c : Int)).toNat = s.storage.length := by omega
          rw [hc, List.getElem?_concat_length]
        · rename_i h1 h2 h3
          cases hp : pySetItem s.storage c x with
          | none => rw [hp] at hset; cases hset
          | some l' =>
            rw [hp] at hset
            have hs' : s' = { s with storage := l' } :=
              (congrArg Prod.fst hset).symm
            subst hs'
            show (match pyGetItem l' c with
              | some a => Except.ok (GetOut.one a)
              | Option.none => Except.error "IndexError") = _
            rw [pySetItem_getItem hp]
  · intro α s c d hinit hbuf hc hcl
    have hstep : tsSetInt s c d true =
        ({ s with
            len := getNewLen s.len s.maxSize 1 [] true,
            buf := s.buf.set c (some d) }, none) := by
      unfold tsSetInt
      dsimp only
      rw [if_pos rfl]
      unfold tsInit
      dsimp only
      rw [if_pos hinit, if_pos (by rw [hbuf]; exact hc)]
    rw [hstep]
    unfold tsGetInt
    rw [if_neg (by simp [hinit])]
    have hlen' : getNewLen s.len s.maxSize 1 [] true = min (s.len + 1) s.maxSize :=
      getNewLen_int s.len s.maxSize
    have hget : (s.buf.set c (some d))[c]? = some (some d) :=
      List.getElem?_set_self (by rw [hbuf]; exact hc)
    show (match (if getNewLen s.len s.maxSize 1 [] true = s.maxSize then
        s.buf.set c (some d)
      else (s.buf.set c (some d)).take
        (getNewLen s.len s.maxSize 1 [] true))[c]? with
      | some a => Except.ok a
      | Option.none => Except.error "IndexError") = _
    by_cases hfull : getNewLen s.len s.maxSize 1 [] true = s.maxSize
    · rw [if_pos hfull, hget]
    · rw [if_neg hfull, List.getElem?_take, if_pos (by rw [hlen']; omega),
        hget]
  · intro cd hl s cur r s' hm hcur hset
    have hs' := clsSetInt_success cd s cur r s' hcur hset
    subst hs'
    have hslots := clsSetItem_slots cd s cur.toNat r hm
    constructor
    · intro t ht
      subst ht
      unfold clsGetItem
      rw [if_neg (by omega)]
      rw [hslots.2.1, hslots.2.2]
      show (match decompressItem cd (compressItem cd (.tensor t)).1
          (compressItem cd (.tensor t)).2 with
        | some r => Except.ok r
        | Option.none => Except.error "TypeError") = _
      rw [decompress_compress_tensor cd hl t]
    · intro bs fs ht hnd
      subst ht
      unfold clsGetItem
      rw [if_neg (by omega)]
      rw [hslots.2.1, hslots.2.2]
      show (match decompressItem cd (compressItem cd (.td bs fs)).1
          (compressItem cd (.td bs fs)).2 with
        | some r => Except.ok r
        | Option.none => Except.error "TypeError") = _
      rw [decompress_compress_td cd hl bs fs hnd]

/-- Witness for C2 at concrete inputs: a list append round-trip, a tensor
row round-trip, and a compressed round-trip with the identity codec on a
tensordict holding one tensor field and one non-tensor field. -/
theorem set_get_roundtrip_witness :
    lsGet (⟨5, [42]⟩ : ListStorage Nat) (.int 0) = .ok (.one 42) ∧
    tsGetInt (tsSetInt (⟨3, 1, true, [some 7, none, none]⟩ :
      TensorStorage Nat) 1 8 true).1 1 = .ok (some 8) ∧
    clsGetItem idCodec
      ((clsSetInt idCodec (freshCLS 4) 0
        (.td [1] [("obs", .tensor ⟨[1, 2, 3], [3], 1, 0⟩),
                  ("note", .nontensor (.int 5))])).1) 0 =
      .ok (.td [] [("obs", .tensor ⟨[1, 2, 3], [3], 1, 0⟩),
                   ("note", .nontensor (.int 5))]) := by
  refine ⟨?_, ?_, ?_⟩
  · exact set_get_roundtrip.1 Nat ⟨5, []⟩ 0 42 ⟨5, [42]⟩ (by decide)
  · exact set_get_roundtrip.2.1 Nat ⟨3, 1, true, [some 7, none, none]⟩ 1 8
      rfl rfl (by decide) (by decide)
  · exact ((set_get_roundtrip.2.2 idCodec (fun b => rfl) (freshCLS 4) 0
      (.td [1] [("obs", .tensor ⟨[1, 2, 3], [3], 1, 0⟩),
                ("note", .nontensor (.int 5))])
      ((clsSetInt idCodec (freshCLS 4) 0
        (.td [1] [("obs", .tensor ⟨[1, 2, 3], [3], 1, 0⟩),
                  ("note", .nontensor (.int 5))])).1)
      rfl (by decide) (by decide)).2 [1]
      [("obs", .tensor ⟨[1, 2, 3], [3], 1, 0⟩),
       ("note", .nontensor (.int 5))] rfl (by decide))

/-! ## Claim C1: invariant step lemmas -/

theorem lsSetInt_inv (s : ListStorage α) (c : Int) (x : α) :
    (lsSetInt s c x).1.maxSize = s.maxSize ∧
    (s.storage.length ≤ s.maxSize →
      (lsSetInt s c x).1.storage.length ≤ s.maxSize) := by
  unfold lsSetInt
  split
  · exact ⟨rfl, fun h => h⟩
  · split
    · exact ⟨rfl, fun h => h⟩
    · split
      · rename_i h1 h2 h3
        refine ⟨rfl, fun h => ?_⟩
        simp only [List.length_append, List.length_cons, List.length_nil]
        omega
      · cases hp : pySetItem s.storage c x with
        | none => exact ⟨rfl, fun h => h⟩
        | some l' =>
          refine ⟨rfl, fun h => ?_⟩
          simpa [pySetItem_length hp] using h

theorem lsSetSeq_inv : ∀ (cs : List Int) (ds : List α) (s : ListStorage α),
    (lsSetSeq s cs ds).1.maxSize = s.maxSize ∧
    (s.storage.length ≤ s.maxSize →
      (lsSetSeq s cs ds).1.storage.length ≤ s.maxSize)
  | [], [], _ => ⟨rfl, fun h => h⟩
  | [], _ :: _, _ => ⟨rfl, fun h => h⟩
  | _ :: _, [], _ => ⟨rfl, fun h => h⟩
  | c :: cs, d :: ds, s => by
    have h1 := lsSetInt_inv s c d
    simp only [lsSetSeq]
    cases hset : lsSetInt s c d with
    | mk s' e =>
      rw [hset] at h1
      have h2 := lsSetSeq_inv cs ds s'
      cases e with
      | none =>
        have hmax : s'.maxSize = s.maxSize := h1.1
        rw [hmax] at h2
        exact ⟨h2.1, fun h => h2.2 (h1.2 h)⟩
      | some msg => exact ⟨h1.1, h1.2⟩

theorem lsSet_noslice_inv (s : ListStorage α) (op : LSOp α) (sc : Bool)
    (hop : op.usesSlice = false) :
    (lsSet s op sc).1.maxSize = s.maxSize ∧
    (s.storage.length ≤ s.maxSize →
      (lsSet s op sc).1.storage.length ≤ s.maxSize) := by
  cases op with
  | int c d => exact lsSetInt_inv s c d
  | slice a b d => exact absurd hop (by simp [LSOp.usesSlice])
  | seq cs ds => exact lsSetSeq_inv cs ds s

theorem lsRun_inv : ∀ (ops : List (LSOp α)) (s : ListStorage α),
    (∀ op ∈ ops, op.usesSlice = false) →
    (lsRun s ops).maxSize = s.maxSize ∧
    (s.storage.length ≤ s.maxSize →
      (lsRun s ops).storage.length ≤ s.maxSize)
  | [], _, _ => ⟨rfl, fun h => h⟩
  | op :: ops, s, hops => by
    have h1 := lsSet_noslice_inv s op true (hops op (by simp))
    have h2 := lsRun_inv ops (lsSet s op true).1
      (fun o ho => hops o (by simp [ho]))
    show (lsRun (lsSet s op true).1 ops).maxSize = s.maxSize ∧ _
    rw [h1.1] at h2
    exact ⟨h2.1, fun h => h2.2 (h1.2 h)⟩

theorem tsInit_maxSize (s : TensorStorage α) : (tsInit s).maxSize = s.maxSize := by
  unfold tsInit; split <;> rfl

theorem tsInit_len (s : TensorStorage α) : (tsInit s).len = s.len := by
  unfold tsInit; split <;> rfl

theorem tsSetInt_maxSize (s : TensorStorage α) (c : Nat) (d : α) (sc : Bool) :
    (tsSetInt s c d sc).1.maxSize = s.maxSize := by
  unfold tsSetInt
  dsimp only
  split <;> split <;> (dsimp only; rw [tsInit_maxSize])

theorem tsSetInt_len (s : TensorStorage α) (c : Nat) (d : α) (sc : Bool) :
    (tsSetInt s c d sc).1.len =
      if sc then getNewLen s.len s.maxSize 1 [] true else s.len := by
  unfold tsSetInt
  dsimp only
  split <;> split <;> (dsimp only; rw [tsInit_len])

theorem tsSetSeq_maxSize (s : TensorStorage α) (cs : List Nat) (ds : List α)
    (sc : Bool) : (tsSetSeq s cs ds sc).1.maxSize = s.maxSize := by
  unfold tsSetSeq
  dsimp only
  split <;> split <;> (dsimp only; rw [tsInit_maxSize])

theorem tsSetSeq_len (s : TensorStorage α) (cs : List Nat) (ds : List α)
    (sc : Bool) :
    (tsSetSeq s cs ds sc).1.len =
      if sc then getNewLen s.len s.maxSize 1 [ds.length] false else s.len := by
  unfold tsSetSeq
  dsimp only
  split <;> split <;> (dsimp only; rw [tsInit_len])

theorem tsSetInt_inv (s : TensorStorage α) (c : Nat) (d : α) (sc : Bool) :
    (tsSetInt s c d sc).1.maxSize = s.maxSize ∧
    (s.len ≤ s.maxSize → (tsSetInt s c d sc).1.len ≤ s.maxSize) := by
  refine ⟨tsSetInt_maxSize s c d sc, fun h => ?_⟩
  rw [tsSetInt_len]
  split
  · exact Nat.min_le_right _ _
  · exact h

theorem tsSetSeq_inv (s : TensorStorage α) (cs : List Nat) (ds : List α)
    (sc : Bool) :
    (tsSetSeq s cs ds sc).1.maxSize = s.maxSize ∧
    (s.len ≤ s.maxSize → (tsSetSeq s cs ds sc).1.len ≤ s.maxSize) := by
  refine ⟨tsSetSeq_maxSize s cs ds sc, fun h => ?_⟩
  rw [tsSetSeq_len]
  split
  · exact Nat.min_le_right _ _
  · exact h

theorem tsRun_inv : ∀ (ops : List (TSOp α)) (s : TensorStorage α),
    (tsRun s ops).maxSize = s.maxSize ∧
    (s.len ≤ s.maxSize → (tsRun s ops).len ≤ s.maxSize)
  | [], _ => ⟨rfl, fun h => h⟩
  | op :: ops, s => by
    have h1 : (tsSet s op).1.maxSize = s.maxSize ∧
        (s.len ≤ s.maxSize → (tsSet s op).1.len ≤ s.maxSize) := by
      cases op with
      | int c d sc => exact tsSetInt_inv s c d sc
      | seq cs ds sc => exact tsSetSeq_inv s cs ds sc
    have h2 := tsRun_inv ops (tsSet s op).1
    show (tsRun (tsSet s op).1 ops).maxSize = s.maxSize ∧ _
    rw [h1.1] at h2
    exact ⟨h2.1, fun h => h2.2 (h1.2 h)⟩

theorem clsSetItem_inv (c : Codec) (s : CompressedListStorage) (cur : Nat)
    (r : Record) :
    (clsSetItem c s cur r).maxSize = s.maxSize ∧
    (clsSetItem c s cur r).storage.length = max s.storage.length (cur + 1) := by
  unfold clsSetItem
  refine ⟨rfl, ?_⟩
  simp only [List.length_set, List.length_append, List.length_replicate]
  omega

theorem clsSetInt_inv (c : Codec) (s : CompressedListStorage) (cur : Int)
    (r : Record) :
    (clsSetInt c s cur r).1.maxSize = s.maxSize ∧
    (s.storage.length ≤ s.maxSize →
      (clsSetInt c s cur r).1.storage.length ≤ s.maxSize) := by
  unfold clsSetInt
  split
  · exact ⟨rfl, fun h => h⟩
  · split
    · exact ⟨rfl, fun h => h⟩
    · split
      · rename_i h1 h2 h3
        refine ⟨(clsSetItem_inv c s cur.toNat r).1, fun h => ?_⟩
        rw [(clsSetItem_inv c s cur.toNat r).2]
        omega
      · split
        · rename_i st md h1 h2 h3 hst hmd
          refine ⟨rfl, fun h => ?_⟩
          simpa [pySetItem_length hst] using h
        · exact ⟨rfl, fun h => h⟩

theorem clsSetSeq_inv (c : Codec) :
    ∀ (cs : List Int) (ds : List Record) (s : CompressedListStorage),
    (clsSetSeq c s cs ds).1.maxSize = s.maxSize ∧
    (s.storage.length ≤ s.maxSize →
      (clsSetSeq c s cs ds).1.storage.length ≤ s.maxSize)
  | [], [], _ => ⟨rfl, fun h => h⟩
  | [], _ :: _, _ => ⟨rfl, fun h => h⟩
  | _ :: _, [], _ => ⟨rfl, fun h => h⟩
  | i :: is_, d :: ds, s => by
    have h1 := clsSetInt_inv c s i d
    simp only [clsSetSeq]
    cases hset : clsSetInt c s i d with
    | mk s' e =>
      rw [hset] at h1
      have h2 := clsSetSeq_inv c is_ ds s'
      cases e with
      | none =>
        have hmax : s'.maxSize = s.maxSize := h1.1
        rw [hmax] at h2
        exact ⟨h2.1, fun h => h2.2 (h1.2 h)⟩
      | some msg => exact ⟨h1.1, h1.2⟩

theorem clsFold_setItem_inv (c : Codec) :
    ∀ (ps : List (Nat × Record)) (s : CompressedListStorage),
    (∀ p ∈ ps, p.1 < s.storage.length) →
    (ps.foldl (fun acc p => clsSetItem c acc p.1 p.2) s).maxSize = s.maxSize ∧
    (ps.foldl (fun acc p => clsSetItem c acc p.1 p.2) s).storage.length =
      s.storage.length
  | [], _, _ => ⟨rfl, rfl⟩
  | p :: ps, s, hps => by
    have hlen : (clsSetItem c s p.1 p.2).storage.length = s.storage.length := by
      rw [(clsSetItem_inv c s p.1 p.2).2]
      have := hps p (by simp)
      omega
    have h2 := clsFold_setItem_inv c ps (clsSetItem c s p.1 p.2)
      (fun q hq => by rw [hlen]; exact hps q (by simp [hq]))
    simp only [List.foldl_cons]
    exact ⟨h2.1.trans (clsSetItem_inv c s p.1 p.2).1, h2.2.trans hlen⟩

theorem sliceIdx_le (n : Nat) (i : Option Int) (d : Nat) (hd : d ≤ n) :
    sliceIdx n i d ≤ n := by
  unfold sliceIdx
  cases i with
  | none => exact hd
  | some j => exact Nat.min_le_right _ _

theorem clsSetSlice_inv (c : Codec) (s : CompressedListStorage)
    (a b : Option Int) (ds : List Record) :
    (clsSetSlice c s a b ds).maxSize = s.maxSize ∧
    (clsSetSlice c s a b ds).storage.length = s.storage.length := by
  unfold clsSetSlice
  apply clsFold_setItem_inv
  intro p hp
  have hp1 := List.of_mem_zip hp
  have hmem := List.mem_range'.mp hp1.1
  have he := sliceIdx_le s.storage.length b s.storage.length (le_refl _)
  omega

theorem clsRun_inv (c : Codec) : ∀ (ops : List CLSOp) (s : CompressedListStorage),
    (clsRun c s ops).maxSize = s.maxSize ∧
    (s.storage.length ≤ s.maxSize →
      (clsRun c s ops).storage.length ≤ s.maxSize)
  | [], _ => ⟨rfl, fun h => h⟩
  | op :: ops, s => by
    have h1 : (clsSet c s op).1.maxSize = s.maxSize ∧
        (s.storage.length ≤ s.maxSize →
          (clsSet c s op).1.storage.length ≤ s.maxSize) := by
      cases op with
      | int cur r => exact clsSetInt_inv c s cur r
      | slice a b ds =>
        have h := clsSetSlice_inv c s a b ds
        exact ⟨h.1, fun hl => by rw [show (clsSet c s (.slice a b ds)).1 =
          clsSetSlice c s a b ds from rfl, h.2]; exact hl⟩
      | seq cs ds => exact clsSetSeq_inv c cs ds s
    have h2 := clsRun_inv c ops (clsSet c s op).1
    show (clsRun c (clsSet c s op).1 ops).maxSize = s.maxSize ∧ _
    rw [h1.1] at h2
    exact ⟨h2.1, fun h => h2.2 (h1.2 h)⟩

theorem clsLen_le_raw (s : CompressedListStorage) :
    clsLen s ≤ s.storage.length :=
  List.length_filter_le _ _

/-! ## Claim C7: occupancy bookkeeping lemmas -/

theorem writeRows_length : ∀ (ps : List (Nat × α)) (buf : List (Option α)),
    (writeRows buf ps).length = buf.length
  | [], _ => rfl
  | p :: ps, buf => by
    obtain ⟨j, d⟩ := p
    show (writeRows (buf.set j (some d)) ps).length = _
    rw [writeRows_length ps, List.length_set]

theorem writeRows_occ : ∀ (ps : List (Nat × α)) (buf : List (Option α)) (i : Nat),
    (∀ q ∈ ps, q.1 < buf.length) →
    ((((writeRows buf ps)[i]?).getD Option.none).isSome = true ↔
      (i ∈ ps.map Prod.fst ∨ ((buf[i]?).getD Option.none).isSome = true))
  | [], buf, i, _ => by
    show (((buf)[i]?).getD Option.none).isSome = true ↔
      (i ∈ ([] : List (Nat × α)).map Prod.fst ∨
        ((buf[i]?).getD Option.none).isSome = true)
    simp
  | q :: ps, buf, i, hq => by
    obtain ⟨j, d⟩ := q
    show (((writeRows (buf.set j (some d)) ps)[i]?).getD Option.none).isSome
      = true ↔ _
    rw [writeRows_occ ps _ i
      (fun r hr => by rw [List.length_set]; exact hq r (by simp [hr]))]
    by_cases hij : j = i
    · subst hij
      have hj : j < buf.length := hq (j, d) (by simp)
      simp [List.getElem?_set_self hj]
    · rw [List.getElem?_set_ne hij]
      simp only [List.map_cons, List.mem_cons]
      constructor
      · intro h
        rcases h with h | h
        · exact Or.inl (Or.inr h)
        · exact Or.inr h
      · intro h
        rcases h with (h | h) | h
        · exact absurd h.symm hij
        · exact Or.inl h
        · exact Or.inr h

theorem countP_isSome_positions : ∀ (buf : List (Option α)),
    buf.countP (·.isSome) =
      ((List.range buf.length).filter
        (fun i => ((buf[i]?).getD Option.none).isSome)).length
  | [] => rfl
  | o :: rest => by
    have hcomp : ((fun i => ((((o :: rest))[i]?).getD Option.none).isSome) ∘
        Nat.succ) = fun i => (((rest)[i]?).getD Option.none).isSome :=
      funext fun i => by simp
    rw [List.countP_cons, countP_isSome_positions rest]
    show _ = ((List.range (rest.length + 1)).filter
      (fun i => ((((o :: rest))[i]?).getD Option.none).isSome)).length
    have hp0 : ((((o :: rest))[0]?).getD Option.none).isSome = o.isSome := by
      simp
    rw [List.range_succ_eq_map, List.filter_cons, List.filter_map, hcomp]
    by_cases ho : o.isSome = true
    · rw [if_pos (hp0.trans ho), if_pos ho]
      simp
    · rw [if_neg (fun hcon => ho (hp0.symm.trans hcon)), if_neg ho]
      simp

theorem filter_range_length_eq (m : Nat) (done : List Nat) (hnd : done.Nodup)
    (hlt : ∀ i ∈ done, i < m) (p : Nat → Bool)
    (hiff : ∀ i, p i = true ↔ i ∈ done) :
    ((List.range m).filter p).length = done.length := by
  have h1 : ((List.range m).filter p).Nodup := (List.nodup_range m).filter _
  have hperm : List.Perm ((List.range m).filter p) done :=
    (List.perm_ext_iff_of_nodup h1 hnd).mpr fun a => by
      rw [List.mem_filter, List.mem_range, hiff]
      exact ⟨fun h => h.2, fun h => ⟨hlt a h, h⟩⟩
  exact hperm.length_eq

theorem nodup_bounded_length (l : List Nat) (m : Nat) (hnd : l.Nodup)
    (hlt : ∀ i ∈ l, i < m) : l.length ≤ m := by
  rw [← List.toFinset_card_of_nodup hnd]
  have hsub : l.toFinset ⊆ Finset.range m := fun a ha =>
    Finset.mem_range.mpr (hlt a (List.mem_toFinset.mp ha))
  calc l.toFinset.card ≤ (Finset.range m).card := Finset.card_le_card hsub
  _ = m := Finset.card_range m

theorem tsSetSeq_success (s : TensorStorage α) (cs : List Nat) (ds : List α)
    (hinit : s.initialized = true) (hcs : ∀ i ∈ cs, i < s.buf.length) :
    tsSetSeq s cs ds true =
      ({ s with
          len := getNewLen s.len s.maxSize 1 [ds.length] false,
          buf := writeRows s.buf (cs.zip ds) }, none) := by
  unfold tsSetSeq
  dsimp only
  rw [if_pos rfl]
  unfold tsInit
  dsimp only
  rw [if_pos hinit]
  rw [if_pos (List.all_eq_true.mpr fun x hx => decide_eq_true (hcs x hx))]

theorem tsRunSeq_inv (α : Type) (m : Nat) :
    ∀ (ops : List (List Nat × List α)) (st : TensorStorage α)
      (done : List Nat),
    st.maxSize = m → st.initialized = true → st.buf.length = m →
    st.len = done.length →
    (done ++ (ops.map Prod.fst).flatten).Nodup →
    (∀ i ∈ done, i < m) →
    (∀ i ∈ (ops.map Prod.fst).flatten, i < m) →
    (∀ op ∈ ops, op.2.length = op.1.length) →
    (∀ i, (((st.buf[i]?).getD Option.none).isSome = true) ↔ i ∈ done) →
    (tsRunSeq st ops).len = done.length + (ops.map Prod.fst).flatten.length ∧
    (tsRunSeq st ops).buf.length = m ∧
    (∀ i, ((((tsRunSeq st ops).buf[i]?).getD Option.none).isSome = true) ↔
      i ∈ done ++ (ops.map Prod.fst).flatten)
  | [], st, done, hmax, hinit, hbuf, hlen, hnd, hdlt, hflt, hsh, hocc => by
    refine ⟨?_, hbuf, ?_⟩
    · simpa using hlen
    · intro i
      simpa using hocc i
  | (cs, ds) :: ops, st, done, hmax, hinit, hbuf, hlen, hnd, hdlt, hflt, hsh,
      hocc => by
    have hds : ds.length = cs.length := hsh (cs, ds) (by simp)
    have hcs_lt : ∀ i ∈ cs, i < m := fun i hi => by
      refine hflt i ?_
      simp only [List.map_cons, List.flatten_cons]
      exact List.mem_append_left _ hi
    have hrest_lt : ∀ i ∈ (ops.map Prod.fst).flatten, i < m := fun i hi => by
      refine hflt i ?_
      simp only [List.map_cons, List.flatten_cons]
      exact List.mem_append_right _ hi
    have hnd' : ((done ++ cs) ++ (ops.map Prod.fst).flatten).Nodup := by
      rw [List.append_assoc]
      simpa using hnd
    have hdc_nd : (done ++ cs).Nodup := hnd'.of_append_left
    have hdc_lt : ∀ i ∈ done ++ cs, i < m := fun i hi => by
      rcases List.mem_append.mp hi with h | h
      · exact hdlt i h
      · exact hcs_lt i h
    have hdc_len : done.length + cs.length ≤ m := by
      have := nodup_bounded_length (done ++ cs) m hdc_nd hdc_lt
      simpa using this
    have hstep := tsSetSeq_success st cs ds hinit
      (fun i hi => by rw [hbuf]; exact hcs_lt i hi)
    have hrun : tsRunSeq st ((cs, ds) :: ops) =
        tsRunSeq (tsSetSeq st cs ds true).1 ops := rfl
    have hst' : (tsSetSeq st cs ds true).1 =
        { st with
            len := getNewLen st.len st.maxSize 1 [ds.length] false,
            buf := writeRows st.buf (cs.zip ds) } := by rw [hstep]
    have hlen' : (tsSetSeq st cs ds true).1.len = (done ++ cs).length := by
      rw [hst']
      show getNewLen st.len st.maxSize 1 [ds.length] false = _
      rw [getNewLen_seq, hlen, hds, hmax, List.length_append]
      omega
    have hbuf' : (tsSetSeq st cs ds true).1.buf.length = m := by
      rw [hst']
      show (writeRows st.buf (cs.zip ds)).length = m
      rw [writeRows_length, hbuf]
    have hocc' : ∀ i,
        ((((tsSetSeq st cs ds true).1.buf[i]?).getD Option.none).isSome = true)
          ↔ i ∈ done ++ cs := by
      intro i
      rw [hst']
      show (((writeRows st.buf (cs.zip ds))[i]?).getD Option.none).isSome
        = true ↔ _
      rw [writeRows_occ (cs.zip ds) st.buf i
        (fun q hq => by
          rw [hbuf]
          exact hcs_lt q.1 (List.of_mem_zip hq).1)]
      rw [List.map_fst_zip cs ds (by omega), hocc i, List.mem_append]
      exact or_comm
    have hrec := tsRunSeq_inv α m ops (tsSetSeq st cs ds true).1 (done ++ cs)
      (by rw [hst']; exact hmax) (by rw [hst']; exact hinit) hbuf' hlen'
      hnd' hdc_lt hrest_lt (fun op hop => hsh op (by simp [hop])) hocc'
    rw [hrun]
    refine ⟨?_, hrec.2.1, ?_⟩
    · rw [hrec.1]
      simp only [List.map_cons, List.flatten_cons, List.length_append]
      omega
    · intro i
      rw [hrec.2.2 i]
      simp only [List.map_cons, List.flatten_cons, List.mem_append,
        List.mem_cons]
      tauto

/-- C7: for the `TensorStorage` family (`ndim = 1` model), each
`set(cursor, data, set_cursor=True)` updates the length to
`min(previous length + element count over data's counted leading axes,
max_size)` — accumulating per-write counts (one per scalar write, the
batch row count per index-sequence write) rather than mirroring the
maximum cursor seen — and after any sequence of partial-batch writes
through non-contiguous cursors addressing distinct in-range slots, the
length equals the number of occupied buffer slots. -/
theorem tensorStorage_len_accounting (α : Type) :
    (∀ (s : TensorStorage α) (c : Nat) (d : α),
      tsLen (tsSetInt s c d true).1 = min (tsLen s + 1) s.maxSize) ∧
    (∀ (s : TensorStorage α) (cs : List Nat) (ds : List α),
      tsLen (tsSetSeq s cs ds true).1 = min (tsLen s + ds.length) s.maxSize) ∧
    (∀ (m : Nat) (ops : List (List Nat × List α)),
      (ops.map Prod.fst).flatten.Nodup →
      (∀ i ∈ (ops.map Prod.fst).flatten, i < m) →
      (∀ op ∈ ops, op.2.length = op.1.length) →
      tsLen (tsRunSeq (freshTS α m) ops) =
        tsOccupied (tsRunSeq (freshTS α m) ops)) := by
  refine ⟨fun s c d => ?_, fun s cs ds => ?_, fun m ops hnd hlt hsh => ?_⟩
  · show (tsSetInt s c d true).1.len = _
    rw [tsSetInt_len, if_pos rfl, getNewLen_int]
    rfl
  · show (tsSetSeq s cs ds true).1.len = _
    rw [tsSetSeq_len, if_pos rfl, getNewLen_seq]
    rfl
  · cases ops with
    | nil => rfl
    | cons op rest =>
      obtain ⟨cs, ds⟩ := op
      have hswap : tsRunSeq (freshTS α m) ((cs, ds) :: rest) =
          tsRunSeq ⟨m, 0, true, List.replicate m Option.none⟩
            ((cs, ds) :: rest) := rfl
      have hinv := tsRunSeq_inv α m ((cs, ds) :: rest)
        ⟨m, 0, true, List.replicate m Option.none⟩ []
        rfl rfl (by simp) rfl (by simpa using hnd) (by simp) hlt hsh
        (fun i => by
          show ((List.replicate m (Option.none : Option α))[i]?.getD
            Option.none).isSome = true ↔ i ∈ ([] : List Nat)
          rw [List.getElem?_replicate]
          split <;> simp)
      show tsLen (tsRunSeq (freshTS α m) ((cs, ds) :: rest)) = _
      rw [hswap]
      unfold tsLen tsOccupied
      rw [hinv.1, countP_isSome_positions, hinv.2.1,
        filter_range_length_eq m (((cs, ds) :: rest).map Prod.fst).flatten
          hnd hlt _ (fun i => by rw [hinv.2.2 i]; simp)]
      simp

/-- Witness for C7: a concrete scalar write, and a concrete two-op batch
sequence through non-contiguous cursors `[0, 2]` then `[4]` on a fresh
storage of capacity 5, where the final length 3 equals the occupied-slot
count. -/
theorem tensorStorage_len_accounting_witness :
    tsLen (tsSetInt (⟨4, 2, true, [some 1, some 2, none, none]⟩ :
      TensorStorage Nat) 0 9 true).1 = 3 ∧
    tsLen (tsRunSeq (freshTS Nat 5) [([0, 2], [10, 12]), ([4], [14])]) =
      tsOccupied (tsRunSeq (freshTS Nat 5) [([0, 2], [10, 12]), ([4], [14])]) ∧
    tsOccupied (tsRunSeq (freshTS Nat 5) [([0, 2], [10, 12]), ([4], [14])]) = 3 := by
  refine ⟨?_, ?_, by decide⟩
  · rw [(tensorStorage_len_accounting Nat).1
      ⟨4, 2, true, [some 1, some 2, none, none]⟩ 0 9]
    rfl
  · exact (tensorStorage_len_accounting Nat).2.2 5
      [([0, 2], [10, 12]), ([4], [14])] (by decide) (by decide) (by decide)

/-! ## Claim C1 -/

/-- Counterexample to C1: the claim asserts `len(storage) ≤ max_size`
after any sequence of `set` calls with any cursor kind; a single
slice-cursor `set` on a fresh `ListStorage(max_size=2)` performs raw
Python slice assignment with no capacity check and grows the list to
length 3. -/
theorem listStorage_slice_set_exceeds_max_size :
    ¬ lsLen (lsRun (freshList Nat 2)
        [.slice Option.none Option.none [1, 2, 3]]) ≤
      (freshList Nat 2).maxSize := by decide

/-- C1 (amended): starting from a freshly constructed storage with capacity
`max_size`, after any finite sequence of `set` calls the length satisfies
`0 ≤ len(storage) ≤ max_size` — for list-backed storage under integer and
index-sequence cursors, for pre-allocated/memory-mapped tensor storage
under all its cursor kinds, and for compressed list storage under all
cursor kinds (integer, slice and sequence); the exception forced by the
counterexample is the list-backed slice cursor, whose raw Python slice
assignment can grow the list past `max_size`. -/
theorem capacity_invariant_amended (α : Type) (m : Nat) (c : Codec) :
    (∀ ops : List (LSOp α), (∀ op ∈ ops, op.usesSlice = false) →
      lsLen (lsRun (freshList α m) ops) ≤ m) ∧
    (∀ ops : List (TSOp α), tsLen (tsRun (freshTS α m) ops) ≤ m) ∧
    (∀ ops : List CLSOp, clsLen (clsRun c (freshCLS m) ops) ≤ m) := by
  refine ⟨fun ops hops => ?_, fun ops => ?_, fun ops => ?_⟩
  · exact (lsRun_inv ops (freshList α m) hops).2 (by simp [freshList])
  · exact (tsRun_inv ops (freshTS α m)).2 (by simp [freshTS])
  · exact (clsLen_le_raw _).trans
      ((clsRun_inv c ops (freshCLS m)).2 (by simp [freshCLS]))

/-- Witness for the amended C1: concrete op sequences on fresh storages of
capacity 3 (the list sequence mixes appends and overwrites, the tensor
sequence mixes scalar and batched writes, the compressed sequence mixes
scalar, slice and sequence cursors). -/
theorem capacity_invariant_amended_witness :
    lsLen (lsRun (freshList Nat 3)
      [.int 0 10, .seq [1, 2] [11, 12], .int 1 99]) ≤ 3 ∧
    tsLen (tsRun (freshTS Nat 3)
      [.int 0 10 true, .seq [1, 2] [11, 12] true, .int 0 5 true]) ≤ 3 ∧
    clsLen (clsRun idCodec (freshCLS 3)
      [.int 0 (.tensor ⟨[1, 2], [2], 0, 0⟩),
       .slice Option.none Option.none [.tensor ⟨[3], [1], 0, 0⟩],
       .seq [1, 2] [.other (.int 7), .other (.int 8)]]) ≤ 3 :=
  ⟨(capacity_invariant_amended Nat 3 idCodec).1
      [.int 0 10, .seq [1, 2] [11, 12], .int 1 99] (by decide),
    (capacity_invariant_amended Nat 3 idCodec).2.1
      [.int 0 10 true, .seq [1, 2] [11, 12] true, .int 0 5 true],
    (capacity_invariant_amended Nat 3 idCodec).2.2
      [.int 0 (.tensor ⟨[1, 2], [2], 0, 0⟩),
       .slice Option.none Option.none [.tensor ⟨[3], [1], 0, 0⟩],
       .seq [1, 2] [.other (.int 7), .other (.int 8)]]⟩

/-! ## Claim C9 -/

/-- Counterexample to C9: the claim asserts that `bytes()` never raises
when the storage is empty; after storing the record `None` at cursor 0
(the `other` branch of `_compress_item` stores the value itself, so the
slot holds Python `None`), `len(storage)` is 0 — the storage is empty by
its own length definition (`__len__` counts non-`None` slots) — yet
`bytes()` raises, because the guard tests the raw backing-list length. -/
theorem compressed_bytes_raises_on_len_zero :
    clsLen ((clsSetInt idCodec (freshCLS 3) 0 (.other .none)).1) = 0 ∧
    clsBytes ((clsSetInt idCodec (freshCLS 3) 0 (.other .none)).1) =
      .error "RuntimeError: Compressed storage is not empty but the compressed size is 0. This is a bug." :=
  ⟨rfl, rfl⟩

/-- C9 (amended): `bytes()` returns the recursive sum of compressed
payload sizes over the backing list; it raises exactly when the *backing
list* is non-empty yet that sum is zero (in particular whenever
`len(storage) > 0` with zero sum, as the claim states, but also for
backing lists holding only `None`/pass-through slots with `len(storage)
== 0`); and when the backing list is empty it returns 0 with a warning and
never raises. -/
theorem compressed_bytes_consistency (s : CompressedListStorage) :
    (∀ n w, clsBytes s = .ok (n, w) → n = (s.storage.map csize).sum) ∧
    (0 < (s.storage.map csize).sum →
      clsBytes s = .ok ((s.storage.map csize).sum, false)) ∧
    (clsLen s ≠ 0 → (s.storage.map csize).sum = 0 →
      clsBytes s =
        .error "RuntimeError: Compressed storage is not empty but the compressed size is 0. This is a bug.") ∧
    (s.storage = [] → clsBytes s = .ok (0, true)) := by
  refine ⟨?_, ?_, ?_, ?_⟩
  · intro n w h
    unfold clsBytes at h
    split at h
    · split at h
      · cases h
      · simp only [Except.ok.injEq, Prod.mk.injEq] at h
        exact h.1.symm
    · simp only [Except.ok.injEq, Prod.mk.injEq] at h
      exact h.1.symm
  · intro hpos
    unfold clsBytes
    rw [if_neg (by omega)]
  · intro hlen hsum
    have hraw : 0 < s.storage.length := by
      by_contra h0
      have hnil : s.storage = [] := List.eq_nil_of_length_eq_zero (by omega)
      apply hlen
      unfold clsLen
      rw [hnil]
      rfl
    unfold clsBytes
    rw [if_pos hsum, if_pos hraw]
  · intro h0
    unfold clsBytes
    rw [h0]
    rfl

/-- Witness for the amended C9: a one-tensor storage reports its
compressed byte count, a storage holding only a pass-through value raises
the consistency guard, and a fresh storage warns and returns 0. -/
theorem compressed_bytes_consistency_witness :
    clsBytes ⟨3, [CVal.tensorBytes [1, 2]], [some (.tensor ⟨[2], 0, 0⟩)]⟩ =
      .ok (2, false) ∧
    clsBytes ⟨3, [CVal.passInt 5], [some (.other (.int 5))]⟩ =
      .error "RuntimeError: Compressed storage is not empty but the compressed size is 0. This is a bug." ∧
    clsBytes (freshCLS 3) = .ok (0, true) :=
  ⟨(compressed_bytes_consistency _).2.1 (by decide),
   (compressed_bytes_consistency _).2.2.1 (by decide) (by decide),
   (compressed_bytes_consistency _).2.2.2 rfl⟩

end Storages
